/-
Verification of the core engine of the GEMi ARM64/ARMv9 instruction
explorer (src/ARMv9.py): bitfield codec, field-space enumerator, alias
resolver, text-to-encoding assembler, and register emulator.

Shallow embedding conventions:
* Python arbitrary-precision non-negative integers become `Nat`; values
  that may be negative (immediates parsed by `int(s, 0)` in the emulator)
  become `Int`, with Python's `x & 0xFF...F` masking rendered as
  `Int.emod x (2 ^ 64)` (identical on all integers).
* Python dicts keyed by strings become association lists
  `List (String × _)`; the dicts in question are only built by insertion
  of fresh keys, so first-match `List.lookup` agrees with dict lookup.
* Python generators become the `List` of the values they yield, and the
  consumer's early `break` becomes `List.take`.
* Fallible code (`try`/`except`, `raise ValueError`) returns
  `Except String _`.
-/
import Mathlib

/-! ### Bitfield codec (src/ARMv9.py, assemble_value lines 1237-1260) -/

/-- The field-insertion step inlined in `assemble_value`
(`val &= ~(mask << start); val |= (value & mask) << start`).
On `Nat`, `v & ~M` is rendered as `v - (v &&& M)`, which is the same
operation for non-negative `v`. -/
def write_field (v start width value : Nat) : Nat :=
  (v - (v &&& (((1 <<< width) - 1) <<< start))) |||
    ((value &&& ((1 <<< width) - 1)) <<< start)

/-- Field extraction `(value >> offset) & ((1 << width) - 1)` as used by
`get_field_highlights` (src lines 1153-1163, where it appears in the
equivalent form `(val & field_mask) >> start`). -/
def extract_field (v start width : Nat) : Nat :=
  (v >>> start) &&& ((1 <<< width) - 1)

/-! ### Instruction descriptors (src/ARMv9.py, ISA_GROUPS lines 33-701) -/

/-- One entry of `ISA_GROUPS` / `OPCODE_MAP`: an instruction-variant
descriptor.  `fields` keeps the Python dict's insertion order. -/
structure OpSpec where
  name : String
  base : Nat
  mask : Nat
  form : String
  desc : String
  fields : List (String × Nat × Nat)

/-- The `ADD` (register) descriptor, src lines 35-49. -/
def ADD_register_spec : OpSpec :=
  { name := "ADD"
  , base := 0x0B000000
  , mask := 0x7FE00000
  , form := "register"
  , desc := "ADD (register): Rd = Rn + Rm [+ optional shift]"
  , fields :=
      [ ("Rd", 0, 5), ("Rn", 5, 5), ("Rm", 16, 5)
      , ("imm6", 10, 6), ("shift", 22, 2), ("sf", 31, 1) ] }

/-- The `ORR` (register) descriptor, src lines 110-124. -/
def ORR_register_spec : OpSpec :=
  { name := "ORR"
  , base := 0x2A000000
  , mask := 0x7FE00000
  , form := "register"
  , desc := "ORR (register): Rd = Rn | Rm"
  , fields :=
      [ ("Rd", 0, 5), ("Rn", 5, 5), ("Rm", 16, 5)
      , ("imm6", 10, 6), ("shift", 22, 2), ("sf", 31, 1) ] }

/-! ### Bit classification (src/ARMv9.py, colorize_bits lines 1138-1151) -/

/-- The three ways `colorize_bits` renders one bit: plain (MATCH),
yellow (LEGAL_VARIATION), red (VIOLATION). -/
inductive BitClass where
  | MATCH
  | LEGAL_VARIATION
  | VIOLATION
deriving DecidableEq, Repr

/-- The per-bit decision of `colorize_bits` (src lines 1141-1150):
`vbit = (val >> i) & 1`, `bbit = (base >> i) & 1`, `fixed = (mask >> i) & 1`;
red if `fixed and vbit != bbit`, yellow if `(not fixed) and vbit != bbit`,
plain otherwise.  `(n >> i) & 1` is `Nat.testBit n i`. -/
def classify_bit (base mask val i : Nat) : BitClass :=
  if mask.testBit i ∧ val.testBit i ≠ base.testBit i then .VIOLATION
  else if ¬ mask.testBit i ∧ val.testBit i ≠ base.testBit i then .LEGAL_VARIATION
  else .MATCH

/-! ### Field-space enumerator (src/ARMv9.py, iterate_field_space lines
1189-1234, assemble_value lines 1237-1260, explore_opcode lines 1264-1333) -/

/-- Python `range(0, stop, step)` for `step ≥ 1` (the source never calls
it with `step = 0`, which would raise; we map that unreachable case
to `[]`). -/
def range_step (stop step : Nat) : List Nat :=
  if step = 0 then [] else (List.range ((stop + step - 1) / step)).map (· * step)

/-- The per-field domain computation in the loop of `iterate_field_space`
(src lines 1194-1207), together with a `Bool` recording whether this
field triggered the lock-out-of-range diagnostic print (line 1200).
`maxVal = 1 << width`; a locked field contributes the single clamped
value `locked_val & (maxVal - 1)`; otherwise the field is swept with
stride 1 when `width ≤ 2`, else with the requested `step`, the stride
clamped to `min stride maxVal`. -/
def field_domain (step : Nat) (locks : List (String × Nat)) (width : Nat)
    (fname : String) : List Nat × Bool :=
  let maxVal := 1 <<< width
  match locks.lookup fname with
  | some lockedVal => ([lockedVal &&& (maxVal - 1)], decide (maxVal ≤ lockedVal))
  | none =>
      let stride := if width ≤ 2 then 1 else step
      let actualStep := if 0 < maxVal then min stride maxVal else 1
      (range_step maxVal actualStep, false)

/-- n-ary Cartesian product in the order of `itertools.product`
(first list varies slowest). -/
def cartesian_product : List (List Nat) → List (List Nat)
  | [] => [[]]
  | d :: ds => d.flatMap (fun x => (cartesian_product ds).map (x :: ·))

/-- The sequence of field-value maps yielded by the generator
`iterate_field_space(fields, vary_fields, locks, step)` (src lines
1189-1234).  Field names in `vary_fields` that are not descriptor fields
are skipped when the domains are built (line 1194). -/
def iterate_field_space (fields : List (String × Nat × Nat))
    (vary_fields : List String) (locks : List (String × Nat)) (step : Nat) :
    List (List (String × Nat)) :=
  let entries := vary_fields.filterMap (fun f =>
    (fields.lookup f).map (fun sw => (f, (field_domain step locks sw.2 f).1)))
  let domains := entries.map (·.2)
  let order := entries.map (·.1)
  if vary_fields = [] ∧ locks ≠ [] then [[]]
  else if domains = [] ∧ vary_fields ≠ [] then []
  else if domains = [] ∧ vary_fields = [] ∧ fields ≠ [] then [[]]
  else (cartesian_product domains).map (fun combo => order.zip combo)

/-- `assemble_value(spec, combo_map, locks)` (src lines 1237-1260):
start from the base, write every varied field's value, then write the
locked value of every descriptor field that is locked and not varied. -/
def assemble_value (spec : OpSpec) (combo_map : List (String × Nat))
    (locks : List (String × Nat)) : Nat :=
  let val := combo_map.foldl (fun v fv =>
    match spec.fields.lookup fv.1 with
    | some sw => write_field v sw.1 sw.2 fv.2
    | none => v) spec.base
  spec.fields.foldl (fun v f =>
    if (combo_map.lookup f.1).isNone then
      match locks.lookup f.1 with
      | some lockVal => write_field v f.2.1 f.2.2 lockVal
      | none => v
    else v) val

/-- The field names for which `assemble_value` prints the
lock-exceeds-width warning (src lines 1255-1256): locked, not varied,
and raw lock value `≥ 2 ^ width`. -/
def assemble_warnings (spec : OpSpec) (combo_map : List (String × Nat))
    (locks : List (String × Nat)) : List String :=
  spec.fields.filterMap (fun f =>
    if (combo_map.lookup f.1).isNone then
      match locks.lookup f.1 with
      | some lockVal => if (1 <<< f.2.2) ≤ lockVal then some f.1 else none
      | none => none
    else none)

/-- The sequence of assembled 32-bit values printed by
`explore_opcode(opname, spec, cs, limit, step, vary_fields, locks, emulator)`
(src lines 1264-1333).  The loop body prints, increments `count`, and
breaks on `count >= limit`, i.e. it yields a `take (max limit 1)` prefix
of the generator; the no-field and locked-only branches print one value. -/
def explore_opcode (spec : OpSpec) (limit step : Nat)
    (vary_req : List String) (locks : List (String × Nat)) : List Nat :=
  let fields := spec.fields
  let vary := if vary_req = [] then fields.map (·.1)
              else vary_req.filter (fun f => (fields.lookup f).isSome)
  let limit := if vary_req ≠ [] ∧ vary = [] ∧ fields ≠ [] then 1 else limit
  if fields = [] then [spec.base]
  else if vary = [] ∧ 0 < limit then [assemble_value spec [] locks]
  else
    ((iterate_field_space fields vary locks step).map
      (fun c => assemble_value spec c locks)).take (max limit 1)

/-! ### Alias resolver (src/ARMv9.py, INSTRUCTION_ALIASES lines 703-709
and the merge in main, lines 1524-1533) -/

/-- Python `str.upper()` (ASCII as exercised here). -/
def pyUpper (s : String) : String := ⟨s.data.map Char.toUpper⟩

/-- `INSTRUCTION_ALIASES` (src lines 703-709). -/
def INSTRUCTION_ALIASES : List (String × String × List (String × Nat)) :=
  [ ("CMP", ("SUBS", [("Rd", 31)]))
  , ("CMN", ("ADDS", [("Rd", 31)]))
  , ("TST", ("ANDS", [("Rd", 31)])) ]

/-- The alias-resolution step of `main` (src lines 1524-1533, identically
lines 1496-1505 for `--describe`): upper-case the mnemonic, and when it is
an alias, switch to its base opcode and insert each alias lock only when
the field is not already locked by the caller. -/
def resolve (mnemonic : String) (caller_locks : List (String × Nat)) :
    String × List (String × Nat) :=
  let opname := pyUpper mnemonic
  match INSTRUCTION_ALIASES.lookup opname with
  | some bl =>
      (bl.1, caller_locks ++ bl.2.filter (fun fv => (caller_locks.lookup fv.1).isNone))
  | none => (opname, caller_locks)

/-! ### Assembler (src/ARMv9.py, ARM64InstructionIO lines 884-1079)

The operand-token grammar is fixed by the regexes in `asm_to_hex`
(lines 934-951): register tokens are `[WX]\d+`, `SP`, and (for the MOV
source only) `XZR`/`WZR`; immediates are `0x...` or decimal literals,
hence non-negative.  We embed the matched token classes as inductive
types and the per-form encoders as functions on them. -/

/-- A register token as matched by the assembler's regexes. -/
inductive Reg where
  | X (n : Nat)
  | W (n : Nat)
  | SP
  | XZR
  | WZR
deriving DecidableEq, Repr

/-- `_parse_register` (src lines 959-971): `SP -> (1, 31)`,
`XZR`/`WZR -> (1, 31)`, `Xn -> (1, n)`, `Wn -> (0, n)`.  The trailing
`raise ValueError` is unreachable for regex-matched tokens. -/
def parse_register : Reg → Nat × Nat
  | .SP => (1, 31)
  | .XZR => (1, 31)
  | .WZR => (1, 31)
  | .X n => (1, n)
  | .W n => (0, n)

/-- Python `reg_str.startswith('X')` on a register token
(true for `Xn` and for `XZR`). -/
def reg_starts_with_X : Reg → Bool
  | .X _ => true
  | .XZR => true
  | _ => false

/-- The `op` argument of `_encode_add_sub_imm`. -/
inductive AddSubOp where
  | ADD
  | SUB
deriving DecidableEq, Repr

def addsub_name : AddSubOp → String
  | .ADD => "ADD"
  | .SUB => "SUB"

/-- `_encode_add_sub_imm` (src lines 973-1012).  The regexes restrict
`rd`/`rn` to `Xn`, `Wn` or `SP` and the immediate to a non-negative
literal (`int(imm_str, 0)`), embedded as a `Nat`. -/
def encode_add_sub_imm (op : AddSubOp) (rdT rnT : Reg) (imm : Nat) :
    Except String Nat :=
  let sf_d := (parse_register rdT).1
  let rd := (parse_register rdT).2
  let sf_n := (parse_register rnT).1
  let rn := (parse_register rnT).2
  if rdT ≠ .SP ∧ rnT ≠ .SP ∧ sf_d ≠ sf_n then
    .error s!"Register size mismatch in {addsub_name op}"
  else if (rdT = .SP ∨ rnT = .SP) ∧ sf_d = 0 then
    .error s!"{addsub_name op} with SP requires 64-bit destination (X register or SP)"
  else
    let sf := if reg_starts_with_X rdT ∨ rdT = .SP then 1 else 0
    let base :=
      if op = .ADD then (if sf = 1 then 0x91000000 else 0x11000000)
      else (if sf = 1 then 0xD1000000 else 0x51000000)
    if imm ≤ 0xFFF then
      .ok (base ||| (0 <<< 22) ||| (imm <<< 10) ||| (rn <<< 5) ||| rd)
    else if 0 < imm ∧ imm ≤ (0xFFF <<< 12) ∧ imm % (1 <<< 12) = 0 then
      .ok (base ||| (1 <<< 22) ||| ((imm >>> 12) <<< 10) ||| (rn <<< 5) ||| rd)
    else
      .error s!"Invalid {addsub_name op} immediate. Must be 0-4095 or a multiple of 4096 up to 0xffffff"

/-- `_encode_mov_imm` (src lines 1015-1032); the regex splits the
register token into its size letter (`sfX`) and number `rd`. -/
def encode_mov_imm (sfX : Bool) (rd : Nat) (imm : Nat) : Except String Nat :=
  if imm ≤ 0xFFFF then
    let base := if sfX then 0xD2800000 else 0x52800000
    .ok (base ||| (0 <<< 21) ||| (imm <<< 5) ||| rd)
  else
    .error s!"Cannot encode immediate {toString imm} with simple MOVZ. Need MOVN/MOVK logic."

/-- `_encode_mov_reg` (src lines 1035-1060).  The destination regex class
is `[WX]\d+|SP`; the source class additionally allows `XZR`/`WZR`. -/
def encode_mov_reg (rdT rmT : Reg) : Except String Nat :=
  let sf_d := (parse_register rdT).1
  let rd := (parse_register rdT).2
  let sf_m := (parse_register rmT).1
  let rm := (parse_register rmT).2
  if rmT ≠ .XZR ∧ rmT ≠ .WZR ∧ rdT ≠ .SP ∧ rmT ≠ .SP ∧ sf_d ≠ sf_m then
    .error "Register size mismatch in MOV"
  else
    let sf := if reg_starts_with_X rdT ∨ rdT = .SP ∨ reg_starts_with_X rmT ∨ rmT = .SP
              then 1 else 0
    let base := if sf = 1 then 0xAA000000 else 0x2A000000
    .ok (base ||| (rm <<< 16) ||| (31 <<< 5) ||| rd)

/-- The assembly-text shapes recognized by the regex dispatch of
`asm_to_hex` (src lines 923-956); `unsupported` stands for any text
matching none of the patterns. -/
inductive AsmInstr where
  | nop
  | addsubImm (op : AddSubOp) (rd rn : Reg) (imm : Nat)
  | movImm (sfX : Bool) (rd : Nat) (imm : Nat)
  | movReg (rd rm : Reg)
  | unsupported (text : String)

/-- `asm_to_hex` (src lines 923-956), returning the 32-bit encoding that
`_format_result` renders in the result's `hex` field (`0x%08X`; the
round-trip through the external capstone decoder only affects the `asm`
field and is out of scope). -/
def asm_to_hex : AsmInstr → Except String Nat
  | .nop => .ok 0xD503201F
  | .addsubImm op rd rn imm => encode_add_sub_imm op rd rn imm
  | .movImm sfX rd imm => encode_mov_imm sfX rd imm
  | .movReg rd rm => encode_mov_reg rd rm
  | .unsupported t => .error s!"Assembly pattern not yet supported: {t}"

/-- Decidable equality of assembler results (used to evaluate the
assembler on concrete inputs). -/
instance exceptDecEq {e a : Type} [DecidableEq e] [DecidableEq a] :
    DecidableEq (Except e a) := fun x y =>
  match x, y with
  | .ok v, .ok w =>
      if h : v = w then isTrue (by rw [h]) else isFalse (fun hh => by cases hh; exact h rfl)
  | .error v, .error w =>
      if h : v = w then isTrue (by rw [h]) else isFalse (fun hh => by cases hh; exact h rfl)
  | .ok _, .error _ => isFalse (fun hh => by cases hh)
  | .error _, .ok _ => isFalse (fun hh => by cases hh)

/-! ### Emulator (src/ARMv9.py, Emulator lines 752-879)

The emulator works on raw strings: `execute(mnemonic, op_str)` splits
`op_str` on commas, strips each part, and dispatches on the upper-cased
mnemonic.  We embed the Python string operations as structural functions
on the character list of a `String`. -/

def pySplitAux (sep : Char) : List Char → List Char → List String
  | [], acc => [⟨acc.reverse⟩]
  | c :: cs, acc =>
      if c = sep then ⟨acc.reverse⟩ :: pySplitAux sep cs []
      else pySplitAux sep cs (c :: acc)

/-- Python `s.split(sep)` for a one-character separator. -/
def pySplit (s : String) (sep : Char) : List String := pySplitAux sep s.data []

def isPySpace (c : Char) : Bool :=
  c = ' ' ∨ c = '\t' ∨ c = '\n' ∨ c = '\r' ∨ c = '\x0b' ∨ c = '\x0c'

/-- Python `s.strip()`. -/
def pyStrip (s : String) : String :=
  ⟨((s.data.dropWhile isPySpace).reverse.dropWhile isPySpace).reverse⟩

/-- Python `c in s` for a character. -/
def pyContains (s : String) (c : Char) : Bool := s.data.contains c

/-- Python `s.startswith(p)`. -/
def pyStartsWith (s p : String) : Bool := p.data.isPrefixOf s.data

/-- Python `s.replace('#', '')`. -/
def pyStripHash (s : String) : String := ⟨s.data.filter (· ≠ '#')⟩

def digit_val (base : Nat) (c : Char) : Option Nat :=
  let v : Nat :=
    if '0' ≤ c ∧ c ≤ '9' then c.toNat - '0'.toNat
    else if 'a' ≤ c ∧ c ≤ 'z' then c.toNat - 'a'.toNat + 10
    else if 'A' ≤ c ∧ c ≤ 'Z' then c.toNat - 'A'.toNat + 10
    else 99
  if v < base then some v else none

def parse_digits (base : Nat) : List Char → Option Nat
  | [] => none
  | cs => cs.foldl (fun acc c => do (← acc) * base + (← digit_val base c)) (some 0)

/-- Python `int(s, 0)`: optional surrounding whitespace and sign, then a
`0x`/`0o`/`0b` prefixed literal or a decimal literal (a leading zero only
when the digits are all zero).  Numeric-literal underscores are not
modelled (never exercised). -/
def pyIntCore : List Char → Option Nat
  | '0' :: c :: rest =>
      if c = 'x' ∨ c = 'X' then parse_digits 16 rest
      else if c = 'o' ∨ c = 'O' then parse_digits 8 rest
      else if c = 'b' ∨ c = 'B' then parse_digits 2 rest
      else if (c :: rest).all (· = '0') then some 0 else none
  | cs => if cs ≠ [] ∧ cs.all (·.isDigit) then parse_digits 10 cs else none

def pyInt (s : String) : Except String Int :=
  let cs := (s.data.dropWhile isPySpace).reverse.dropWhile isPySpace |>.reverse
  let signBody : Bool × List Char :=
    match cs with
    | '-' :: r => (true, r)
    | '+' :: r => (false, r)
    | r => (false, r)
  match pyIntCore signBody.2 with
  | some n => .ok (if signBody.1 then -(n : Int) else (n : Int))
  | none => .error s!"invalid literal for int: {s}"

/-- Lowercase hex rendering `0x...` of a `Nat` (Python `format(n, '#x')`). -/
def toHexNat (n : Nat) : String := ⟨'0' :: 'x' :: Nat.toDigits 16 n⟩

/-- Python `format(i, '#x')` on a possibly negative integer. -/
def toHexInt (i : Int) : String :=
  if i < 0 then "-" ++ toHexNat i.natAbs else toHexNat i.toNat

/-- The emulator register file.  The Python dict `self.regs` (keys
`X0`..`X30` and `SP`, all initially 0, read with `.get(name, 0)`) is
embedded as a total function with default 0; `execute` observes it only
through `get_reg`/`set_reg`, for which this is equivalent. -/
structure RegFile where
  regs : String → Nat

def RegFile.init : RegFile := ⟨fun _ => 0⟩

/-- `Emulator.get_reg` (src lines 760-776). -/
def get_reg (rf : RegFile) (reg_name : String) : Nat :=
  let n := pyUpper reg_name
  if n = "XZR" then 0
  else if n = "WZR" then 0
  else if pyStartsWith n "X" then rf.regs n
  else if pyStartsWith n "W" then rf.regs ⟨'X' :: n.data.drop 1⟩ &&& 0xFFFFFFFF
  else if n = "SP" then rf.regs "SP"
  else 0

/-- `Emulator.set_reg` (src lines 778-793): mask the value to 64 bits
(`value &= 0xFFFFFFFFFFFFFFFF`, i.e. `emod 2^64` on a Python int),
discard writes to `XZR`/`WZR`, route `Wn` writes to the low 32 bits of
`Xn` with zero-extension. -/
def set_reg (rf : RegFile) (reg_name : String) (value : Int) : RegFile :=
  let v : Nat := (value.emod (2 ^ 64)).toNat
  let n := pyUpper reg_name
  if n = "XZR" ∨ n = "WZR" then rf
  else if pyStartsWith n "X" then ⟨fun s => if s = n then v else rf.regs s⟩
  else if pyStartsWith n "W" then
    ⟨fun s => if s = (⟨'X' :: n.data.drop 1⟩ : String) then v &&& 0xFFFFFFFF else rf.regs s⟩
  else if n = "SP" then ⟨fun s => if s = "SP" then v else rf.regs s⟩
  else rf

/-- The `ADD Xd, Xn, #imm` branch of `execute` (src lines 803-809).
A tuple-unpack of the wrong arity or an `int()` parse failure raises,
embedded as `Except.error`. -/
def emu_add_imm (rf : RegFile) : List String → Except String (String × RegFile)
  | [rd, rn, imm_str] =>
      match pyInt (pyStripHash imm_str) with
      | .error e => .error e
      | .ok imm_val =>
          let rn_val := get_reg rf rn
          let result := ((rn_val : Int) + imm_val).emod (2 ^ 64)
          .ok (s!"; {rd} = {rn} + {imm_str} = {toHexNat rn_val} + {toHexInt imm_val} = {toHexInt result}",
               set_reg rf rd result)
  | _ => .error "unpack"

/-- The `ADD Xd, Xn, Xm` branch (src lines 810-816). -/
def emu_add_reg (rf : RegFile) : List String → Except String (String × RegFile)
  | [rd, rn, rm] =>
      let rn_val := get_reg rf rn
      let rm_val := get_reg rf rm
      let result := ((rn_val : Int) + (rm_val : Int)).emod (2 ^ 64)
      .ok (s!"; {rd} = {rn} + {rm} = {toHexNat rn_val} + {toHexNat rm_val} = {toHexInt result}",
           set_reg rf rd result)
  | _ => .error "unpack"

/-- The `SUB Xd, Xn, #imm` branch (src lines 817-823). -/
def emu_sub_imm (rf : RegFile) : List String → Except String (String × RegFile)
  | [rd, rn, imm_str] =>
      match pyInt (pyStripHash imm_str) with
      | .error e => .error e
      | .ok imm_val =>
          let rn_val := get_reg rf rn
          let result := ((rn_val : Int) - imm_val).emod (2 ^ 64)
          .ok (s!"; {rd} = {rn} - {imm_str} = {toHexNat rn_val} - {toHexInt imm_val} = {toHexInt result}",
               set_reg rf rd result)
  | _ => .error "unpack"

/-- The `SUB Xd, Xn, Xm` branch (src lines 824-830). -/
def emu_sub_reg (rf : RegFile) : List String → Except String (String × RegFile)
  | [rd, rn, rm] =>
      let rn_val := get_reg rf rn
      let rm_val := get_reg rf rm
      let result := ((rn_val : Int) - (rm_val : Int)).emod (2 ^ 64)
      .ok (s!"; {rd} = {rn} - {rm} = {toHexNat rn_val} - {toHexNat rm_val} = {toHexInt result}",
           set_reg rf rd result)
  | _ => .error "unpack"

/-- The `MOV Xd, #imm` branch (src lines 833-841): a 16-bit immediate is
written; a larger (or negative) one only produces the
"complex immediate" narrative, with no register write. -/
def emu_mov_imm (rf : RegFile) : List String → Except String (String × RegFile)
  | [rd, imm_str] =>
      match pyInt (pyStripHash imm_str) with
      | .error e => .error e
      | .ok imm_val =>
          if 0 ≤ imm_val ∧ imm_val ≤ 0xFFFF then
            .ok (s!"; {rd} = {toHexInt imm_val}", set_reg rf rd imm_val)
          else
            .ok (s!"; {rd} = {toHexInt imm_val} (complex immediate)", rf)
  | _ => .error "unpack"

/-- The `MOV Xd, Xn` branch (src lines 843-847). -/
def emu_mov_reg (rf : RegFile) : List String → Except String (String × RegFile)
  | [rd, rn] =>
      let rn_val := get_reg rf rn
      .ok (s!"; {rd} = {rn} = {toHexNat rn_val}", set_reg rf rd (rn_val : Int))
  | _ => .error "unpack"

/-- The `AND Xd, Xn, Xm` branch (src lines 850-856). -/
def emu_and_reg (rf : RegFile) : List String → Except String (String × RegFile)
  | [rd, rn, rm] =>
      let rn_val := get_reg rf rn
      let rm_val := get_reg rf rm
      let result := rn_val &&& rm_val
      .ok (s!"; {rd} = {rn} & {rm} = {toHexNat rn_val} & {toHexNat rm_val} = {toHexNat result}",
           set_reg rf rd (result : Int))
  | _ => .error "unpack"

/-- The `ORR Xd, Xn, Xm` branch (src lines 857-863). -/
def emu_orr_reg (rf : RegFile) : List String → Except String (String × RegFile)
  | [rd, rn, rm] =>
      let rn_val := get_reg rf rn
      let rm_val := get_reg rf rm
      let result := rn_val ||| rm_val
      .ok (s!"; {rd} = {rn} | {rm} = {toHexNat rn_val} | {toHexNat rm_val} = {toHexNat result}",
           set_reg rf rd (result : Int))
  | _ => .error "unpack"

/-- The `EOR Xd, Xn, Xm` branch (src lines 864-870). -/
def emu_eor_reg (rf : RegFile) : List String → Except String (String × RegFile)
  | [rd, rn, rm] =>
      let rn_val := get_reg rf rn
      let rm_val := get_reg rf rm
      let result := rn_val ^^^ rm_val
      .ok (s!"; {rd} = {rn} ^ {rm} = {toHexNat rn_val} ^ {toHexNat rm_val} = {toHexNat result}",
           set_reg rf rd (result : Int))
  | _ => .error "unpack"

/-- The branch dispatch of `Emulator.execute` (src lines 801-872), on the
upper-cased mnemonic, the stripped comma-split operand parts, and
whether the raw operand string contains `#`.  The fall-through (no
branch matches) leaves `result_str = ""` with the state untouched. -/
def executeBody (rf : RegFile) (m : String) (parts : List String)
    (hasHash : Bool) : Except String (String × RegFile) :=
  if m = "ADD" ∧ hasHash then emu_add_imm rf parts
  else if m = "ADD" ∧ parts.length = 3 then emu_add_reg rf parts
  else if m = "SUB" ∧ hasHash then emu_sub_imm rf parts
  else if m = "SUB" ∧ parts.length = 3 then emu_sub_reg rf parts
  else if m = "MOV" ∧ hasHash then emu_mov_imm rf parts
  else if m = "MOV" ∧ parts.length = 2 then emu_mov_reg rf parts
  else if m = "AND" ∧ !hasHash then emu_and_reg rf parts
  else if m = "ORR" ∧ !hasHash then emu_orr_reg rf parts
  else if m = "EOR" ∧ !hasHash then emu_eor_reg rf parts
  else .ok ("", rf)

/-- `Emulator.execute(mnemonic, op_str)` (src lines 795-879): returns the
narrative string and the updated register file.  The surrounding
`try`/`except` turns any raised exception into the empty narrative with
the state as it was (no branch mutates before its last possible raise). -/
def execute (rf : RegFile) (mnemonic op_str : String) : String × RegFile :=
  let m := pyUpper mnemonic
  let parts := (pySplit op_str ',').map pyStrip
  match executeBody rf m parts (pyContains op_str '#') with
  | .ok r => r
  | .error _ => ("", rf)

/-! ### Lemmas about the bitfield codec -/

lemma land_mask_shift (v s w : Nat) :
    v &&& (((1 <<< w) - 1) <<< s) = ((v >>> s) % 2 ^ w) <<< s := by
  apply Nat.eq_of_testBit_eq
  intro j
  rcases Nat.lt_or_ge j s with h | h
  · simp [Nat.testBit_and, Nat.testBit_shiftLeft, Nat.not_le.mpr h]
  · simp only [Nat.testBit_and, Nat.testBit_shiftLeft, Nat.one_shiftLeft,
      Nat.testBit_two_pow_sub_one, Nat.testBit_mod_two_pow, Nat.testBit_shiftRight,
      ge_iff_le, h, Bool.true_and, Nat.add_sub_cancel' h]
    cases v.testBit j <;> cases (decide (j - s < w)) <;> simp

lemma sub_land_mask (v s w : Nat) :
    v - (v &&& (((1 <<< w) - 1) <<< s)) = v % 2 ^ s + 2 ^ (s + w) * (v / 2 ^ (s + w)) := by
  rw [land_mask_shift, Nat.shiftLeft_eq, Nat.shiftRight_eq_div_pow]
  have h1 : 2 ^ (s + w) * (v / 2 ^ (s + w)) + v % 2 ^ (s + w) = v := Nat.div_add_mod v _
  have h2 : v % 2 ^ (s + w) = v % 2 ^ s + 2 ^ s * (v / 2 ^ s % 2 ^ w) := by
    rw [pow_add]; exact Nat.mod_mul
  have h3 : 2 ^ s * (v / 2 ^ s % 2 ^ w) = (v / 2 ^ s % 2 ^ w) * 2 ^ s := Nat.mul_comm _ _
  omega

lemma write_field_testBit (v s w x i : Nat) :
    (write_field v s w x).testBit i =
      if s ≤ i ∧ i < s + w then x.testBit (i - s) else v.testBit i := by
  have hb : v % 2 ^ s < 2 ^ (s + w) :=
    lt_of_lt_of_le (Nat.mod_lt v (Nat.two_pow_pos s))
      (Nat.pow_le_pow_right (by norm_num) (Nat.le_add_right s w))
  unfold write_field
  rw [sub_land_mask, Nat.add_comm (v % 2 ^ s), Nat.one_shiftLeft,
    Nat.and_pow_two_sub_one_eq_mod]
  rw [Nat.testBit_or, Nat.testBit_mul_pow_two_add _ hb, Nat.testBit_shiftLeft]
  rcases Nat.lt_or_ge i s with h1 | h1
  · have h2 : i < s + w := by omega
    simp only [h2, if_true, Nat.testBit_mod_two_pow, Nat.testBit_shiftLeft, ge_iff_le]
    have h3 : ¬ (s ≤ i ∧ i < s + w) := by omega
    simp [h1, Nat.not_le.mpr h1, h3]
  · rcases Nat.lt_or_ge i (s + w) with h2 | h2
    · have h3 : s ≤ i ∧ i < s + w := by omega
      have h4 : ¬ (i < s) := by omega
      simp [h2, h3, h1, h4, Nat.testBit_mod_two_pow]
      omega
    · have h3 : ¬ (i < s + w) := Nat.not_lt.mpr h2
      have h4 : ¬ (i - s < w) := by omega
      have h5 : ¬ (s ≤ i ∧ i < s + w) := by omega
      simp [h3, h5, h4, Nat.testBit_mod_two_pow,
        ← Nat.shiftRight_eq_div_pow, Nat.testBit_shiftRight, Nat.add_sub_cancel' h2]

lemma write_field_frame (v s w x i : Nat) (h : ¬ (s ≤ i ∧ i < s + w)) :
    (write_field v s w x).testBit i = v.testBit i := by
  rw [write_field_testBit]; simp [h]

lemma extract_write_field (v s w x : Nat) :
    extract_field (write_field v s w x) s w = x % 2 ^ w := by
  apply Nat.eq_of_testBit_eq
  intro j
  unfold extract_field
  rw [Nat.testBit_and, Nat.testBit_shiftRight, write_field_testBit,
    Nat.one_shiftLeft, Nat.testBit_two_pow_sub_one, Nat.testBit_mod_two_pow]
  by_cases hj : j < w
  · have : s ≤ s + j ∧ s + j < s + w := by omega
    simp [this, hj, Nat.add_sub_cancel_left]
  · have : ¬ (s ≤ s + j ∧ s + j < s + w) := by omega
    simp [this, hj]

/-! ### Association-list helpers -/

lemma mem_of_lookup_eq_some {α : Type} {l : List (String × α)} {k : String} {v : α}
    (h : l.lookup k = some v) : (k, v) ∈ l := by
  obtain ⟨l1, l2, rfl, -⟩ := List.lookup_eq_some_iff.mp h
  exact List.mem_append_right l1 (List.mem_cons_self _ _)

lemma lookup_isSome_of_mem {α : Type} {l : List (String × α)} {fv : String × α}
    (h : fv ∈ l) : (l.lookup fv.1).isSome :=
  List.lookup_isSome_iff.mpr ⟨fv, h, by simp⟩

lemma lookup_append_some {α : Type} {l1 : List (String × α)} (l2 : List (String × α))
    {k : String} {v : α} (h : l1.lookup k = some v) : (l1 ++ l2).lookup k = some v := by
  rw [List.lookup_append, h, Option.or]

lemma foldl_testBit_frame {β : Type} {g : Nat → β → Nat} {l : List β} {v0 i : Nat}
    (h : ∀ b ∈ l, ∀ v, (g v b).testBit i = v.testBit i) :
    (l.foldl g v0).testBit i = v0.testBit i := by
  induction l generalizing v0 with
  | nil => rfl
  | cons a t ih =>
      rw [List.foldl_cons, ih (fun b hb v => h b (List.mem_cons_of_mem a hb) v),
        h a (List.mem_cons_self a t) v0]

/-- Claim C10: the 32-bit value produced by `assemble_value` agrees with
`descriptor.base` on every bit position lying outside the bit windows of
the fields actually written (descriptor fields present in the varied map,
plus descriptor fields present in the lock set); only those windows can
differ from the base. -/
theorem C10_assemble_frame (spec : OpSpec) (combo_map locks : List (String × Nat))
    (i : Nat)
    (h : ∀ f ∈ spec.fields,
      ((combo_map.lookup f.1).isSome ∨ (locks.lookup f.1).isSome) →
      ¬ (f.2.1 ≤ i ∧ i < f.2.1 + f.2.2)) :
    (assemble_value spec combo_map locks).testBit i = spec.base.testBit i := by
  unfold assemble_value
  refine (foldl_testBit_frame ?_).trans (foldl_testBit_frame ?_)
  · intro f hf v
    rcases hcc : combo_map.lookup f.1 with _ | cv
    · rcases hll : locks.lookup f.1 with _ | lv
      · simp [hcc, hll]
      · simp only [hcc, Option.isNone_none, if_true, hll]
        exact write_field_frame _ _ _ _ _ (h f hf (Or.inr (by simp [hll])))
    · simp [hcc]
  · intro fv hfv v
    rcases hlk : spec.fields.lookup fv.1 with _ | sw
    · simp [hlk]
    · simp only [hlk]
      exact write_field_frame _ _ _ _ _
        (h (fv.1, sw) (mem_of_lookup_eq_some hlk) (Or.inl (lookup_isSome_of_mem hfv)))

/-- Witness for C10 at a concrete input: varying only `Rm` (bits 16..20)
of the `ADD` (register) descriptor leaves bit 0 at its base value. -/
theorem C10_assemble_frame_witness :
    (assemble_value ADD_register_spec [("Rm", 5)] []).testBit 0 =
      (ADD_register_spec.base).testBit 0 :=
  C10_assemble_frame ADD_register_spec [("Rm", 5)] [] 0 (by decide)

/-- Claim C3: the bit classification of `colorize_bits` is three-way
(equal bit → MATCH; differing unmasked bit → LEGAL_VARIATION; differing
masked bit → VIOLATION).  Consequently, writing a field whose window lies
entirely inside unmasked bits onto the base value never classifies any
bit as VIOLATION, every changed bit is LEGAL_VARIATION, and flipping any
masked bit classifies that bit as VIOLATION. -/
theorem C3_bit_classification (base mask x s w : Nat)
    (hm : ∀ j, j < w → mask.testBit (s + j) = false) :
    (∀ i, classify_bit base mask (write_field base s w x) i ≠ .VIOLATION) ∧
    (∀ i, (write_field base s w x).testBit i ≠ base.testBit i →
        classify_bit base mask (write_field base s w x) i = .LEGAL_VARIATION) ∧
    (∀ i val, mask.testBit i = true → val.testBit i ≠ base.testBit i →
        classify_bit base mask val i = .VIOLATION) := by
  have hwin : ∀ i, (write_field base s w x).testBit i ≠ base.testBit i →
      mask.testBit i = false := by
    intro i hne
    by_cases hw : s ≤ i ∧ i < s + w
    · have := hm (i - s) (by omega)
      have his : s + (i - s) = i := by omega
      rwa [his] at this
    · exact absurd (write_field_frame base s w x i hw) hne
  refine ⟨?_, ?_, ?_⟩
  · intro i
    unfold classify_bit
    by_cases hne : (write_field base s w x).testBit i = base.testBit i
    · simp [hne]
    · simp [hne, hwin i hne]
  · intro i hne
    unfold classify_bit
    simp [hne, hwin i hne]
  · intro i val hmk hne
    unfold classify_bit
    simp [hmk, hne]

/-- Witness for C3 at a concrete input: writing `Rm = 3` (window
bits 16..20, unmasked under mask `0x7FE00000`) onto the `ADD` (register)
base never yields VIOLATION at the changed bit 16, and flipping fixed
bit 24 yields VIOLATION. -/
theorem C3_bit_classification_witness :
    classify_bit 0x0B000000 0x7FE00000 (write_field 0x0B000000 16 5 3) 16 ≠
      BitClass.VIOLATION ∧
    classify_bit 0x0B000000 0x7FE00000 (0x0B000000 ^^^ (1 <<< 24)) 24 =
      BitClass.VIOLATION :=
  ⟨(C3_bit_classification 0x0B000000 0x7FE00000 3 16 5 (by decide)).1 16,
   (C3_bit_classification 0x0B000000 0x7FE00000 3 16 5 (by decide)).2.2 24
     (0x0B000000 ^^^ (1 <<< 24)) (by decide) (by decide)⟩

/-- Counterexample to claim C2 as stated: with `limit = 0` (and the stock
step 4), exploring the `ADD` (register) descriptor varying only `sf`
still prints one assembled value, because the loop checks
`count >= limit` only after printing (src lines 1327-1330), so the
yield count is not `≤ limit` for `limit = 0`. -/
theorem C2_cap_counterexample :
    ¬ ((explore_opcode ADD_register_spec 0 4 ["sf"] []).length ≤ 0) := by decide

lemma explore_len_aux (b1 b2 l : List Nat) (c0 c1 c2 : Prop)
    [Decidable c0] [Decidable c1] [Decidable c2]
    (hb1 : b1.length = 1) (hb2 : b2.length = 1) (limit : Nat) (h : 1 ≤ limit) :
    (if c1 then b1 else if c2 then b2
     else l.take ((if c0 then 1 else limit) ⊔ 1)).length ≤ limit := by
  split_ifs <;> simp [*, List.length_take]

/-- Claim C2 (amended): for every descriptor, vary-set, lock set and
caller-supplied limit of at least 1, the exploration of an opcode yields
at most `limit` assembled values, however large the Cartesian product of
the field domains is.  (Amendment forced by the counterexample: with
`limit = 0` — and likewise for a descriptor without fields, whose branch
ignores `limit` — one value is still printed.) -/
theorem C2_cap (spec : OpSpec) (limit step : Nat) (vary_req : List String)
    (locks : List (String × Nat)) (h : 1 ≤ limit) :
    (explore_opcode spec limit step vary_req locks).length ≤ limit := by
  unfold explore_opcode
  exact explore_len_aux [spec.base] [assemble_value spec [] locks] _ _ _ _ (by simp) (by simp) limit h

/-- Witness for C2 (amended): exploring `ADD` (register), varying `sf`,
with `limit = 2` yields at most 2 values. -/
theorem C2_cap_witness :
    (explore_opcode ADD_register_spec 2 4 ["sf"] []).length ≤ 2 :=
  C2_cap ADD_register_spec 2 4 ["sf"] [] (by decide)

/-- Claim C9: a field lock whose raw value reaches or exceeds the field's
2^width capacity is clamped into range everywhere it is used — the
enumeration domain of the locked field is the single value
`raw % 2 ^ width`, and the value actually inserted into the field window
during assembly is `raw % 2 ^ width` — and in both places a diagnostic is
emitted (the `true` flag of `field_domain`, membership in
`assemble_warnings`) rather than silent truncation. -/
theorem C9_lock_clamping (step : Nat) (locks : List (String × Nat))
    (f : String) (w v : Nat) (hl : locks.lookup f = some v) (hv : 2 ^ w ≤ v) :
    field_domain step locks w f = ([v % 2 ^ w], true) ∧
    (∀ u s, extract_field (write_field u s w v) s w = v % 2 ^ w) ∧
    (∀ (spec : OpSpec) (combo_map : List (String × Nat)) (s : Nat),
      (combo_map.lookup f).isNone → (f, (s, w)) ∈ spec.fields →
      f ∈ assemble_warnings spec combo_map locks) := by
  refine ⟨?_, fun u s => extract_write_field u s w v, ?_⟩
  · unfold field_domain
    rw [hl]
    simp [Nat.one_shiftLeft, Nat.and_pow_two_sub_one_eq_mod, hv]
  · intro spec combo_map s hc hmem
    unfold assemble_warnings
    refine List.mem_filterMap.mpr ⟨(f, (s, w)), hmem, ?_⟩
    simp [hc, hl, Nat.one_shiftLeft, hv]

/-- Witness for C9 at a concrete input: locking `Rd` (5 bits) to the
out-of-range raw value 40 gives the clamped singleton domain `[8]` with
the diagnostic flag set, and assembling the `ADD` (register) descriptor
under that lock writes 8 into the `Rd` window. -/
theorem C9_lock_clamping_witness :
    field_domain 4 [("Rd", 40)] 5 "Rd" = ([8], true) ∧
    extract_field (write_field 0x0B000000 0 5 40) 0 5 = 8 ∧
    "Rd" ∈ assemble_warnings ADD_register_spec [] [("Rd", 40)] := by
  have h := C9_lock_clamping 4 [("Rd", 40)] "Rd" 5 40 (by decide) (by decide)
  exact ⟨h.1, h.2.1 0x0B000000 0, h.2.2 ADD_register_spec [] 0 (by decide) (by decide)⟩

/-- Claim C4: alias resolution merges an alias's locked fields into the
caller's lock set only for fields not already locked by the caller, so
caller locks always win; in particular resolving `CMP` with caller locks
`{Rd: 5}` yields base mnemonic `SUBS` with `Rd = 5`, not the alias
default `Rd = 31`. -/
theorem C4_alias_precedence :
    resolve "CMP" [("Rd", 5)] = ("SUBS", [("Rd", 5)]) ∧
    (∀ (m : String) (locks : List (String × Nat)) (f : String) (v : Nat),
      locks.lookup f = some v → ((resolve m locks).2).lookup f = some v) := by
  constructor
  · decide
  · intro m locks f v h
    unfold resolve
    rcases h2 : INSTRUCTION_ALIASES.lookup (pyUpper m) with _ | bl <;> simp only [h2]
    · exact h
    · exact lookup_append_some _ h

/-- Witness for C4: the caller's lock `Rd = 5` survives resolving the
`CMP` alias. -/
theorem C4_alias_precedence_witness :
    ((resolve "CMP" [("Rd", 5)]).2).lookup "Rd" = some 5 :=
  C4_alias_precedence.2 "CMP" [("Rd", 5)] "Rd" 5 (by decide)

/-- Claim C1: for ADD/SUB-immediate requests (X registers here; the `sf`
bit only selects the base constant), an immediate in `[0, 4095]` encodes
directly with shift selector 0; an exact non-zero multiple of 4096 not
exceeding `4095 * 4096` encodes `immediate / 4096` with shift selector 1;
every other immediate yields the explicit out-of-range error.  In
particular `ADD X0, X1, #0x123` encodes to `0x91048C20`,
`ADD X0, X1, #0x3000` to `0x91400C20`, and `ADD X0, X1, #0x12345`
is an error. -/
theorem C1_addsub_immediate :
    (∀ (op : AddSubOp) (rd rn imm : Nat),
      encode_add_sub_imm op (.X rd) (.X rn) imm =
        if imm ≤ 4095 then
          .ok ((if op = .ADD then 0x91000000 else 0xD1000000) |||
                (0 <<< 22) ||| (imm <<< 10) ||| (rn <<< 5) ||| rd)
        else if imm % 4096 = 0 ∧ 0 < imm ∧ imm ≤ 4095 * 4096 then
          .ok ((if op = .ADD then 0x91000000 else 0xD1000000) |||
                (1 <<< 22) ||| ((imm / 4096) <<< 10) ||| (rn <<< 5) ||| rd)
        else
          .error s!"Invalid {addsub_name op} immediate. Must be 0-4095 or a multiple of 4096 up to 0xffffff") ∧
    asm_to_hex (.addsubImm .ADD (.X 0) (.X 1) 0x123) = .ok 0x91048C20 ∧
    asm_to_hex (.addsubImm .ADD (.X 0) (.X 1) 0x3000) = .ok 0x91400C20 ∧
    ∃ e, asm_to_hex (.addsubImm .ADD (.X 0) (.X 1) 0x12345) = .error e := by
  refine ⟨?_, rfl, rfl, ⟨_, rfl⟩⟩
  intro op rd rn imm
  have e2 : (0xFFF : Nat) <<< 12 = 4095 * 4096 := by decide
  have e3 : (1 : Nat) <<< 12 = 4096 := by decide
  have e4 : imm >>> 12 = imm / 4096 := by
    rw [Nat.shiftRight_eq_div_pow]
  cases op <;>
    simp only [encode_add_sub_imm, parse_register, reg_starts_with_X, addsub_name,
      e2, e3, e4] <;>
    norm_num <;>
    split_ifs <;>
    first | rfl | (exfalso; omega)
/-- Claim C5: the assembler encodes `MOV X0, X1` as `0xAA0103E0`, the
bit pattern of `ORR X0, XZR, X1` under the `ORR` (register) descriptor
(`sf = 1`, `Rm = 1`, `Rn = 31` i.e. the zero register, `Rd = 0`), and in
general `MOV Xd, Xm` is assembled as that bitwise-OR form with `Rn = 31`,
never as a dedicated move opcode. -/
theorem C5_mov_is_orr :
    encode_mov_reg (.X 0) (.X 1) = .ok 0xAA0103E0 ∧
    assemble_value ORR_register_spec
      [("sf", 1), ("Rm", 1), ("Rn", 31), ("Rd", 0)] [] = 0xAA0103E0 ∧
    (∀ rd, rd < 32 → ∀ rm, rm < 32 →
      asm_to_hex (.movReg (.X rd) (.X rm)) =
        .ok (assemble_value ORR_register_spec
          [("sf", 1), ("Rm", rm), ("Rn", 31), ("Rd", rd)] [])) := by
  refine ⟨rfl, by decide, ?_⟩
  decide

/-- Witness for C5: `MOV X2, X7` assembles to the `ORR X2, XZR, X7`
pattern of the `ORR` (register) descriptor. -/
theorem C5_mov_is_orr_witness :
    asm_to_hex (.movReg (.X 2) (.X 7)) =
      .ok (assemble_value ORR_register_spec
        [("sf", 1), ("Rm", 7), ("Rn", 31), ("Rd", 2)] []) :=
  C5_mov_is_orr.2.2 2 (by decide) 7 (by decide)

/-! ### Emulator lemmas -/

lemma set_reg_zr (rf : RegFile) (d : String) (v : Int)
    (h : pyUpper d = "XZR" ∨ pyUpper d = "WZR") : set_reg rf d v = rf := by
  unfold set_reg
  rcases h with h | h <;> simp [h]

lemma emu_add_imm_state (rf : RegFile) (d : String) (rest : List String)
    (r : String × RegFile) (h : emu_add_imm rf (d :: rest) = .ok r) :
    r.2 = rf ∨ ∃ v, r.2 = set_reg rf d v := by
  rcases rest with _ | ⟨a, _ | ⟨b, _ | ⟨c, tl⟩⟩⟩ <;> simp [emu_add_imm] at h
  rcases hp : pyInt (pyStripHash b) with e | iv <;> simp [hp] at h
  exact Or.inr ⟨_, (congrArg Prod.snd h).symm⟩

lemma emu_sub_imm_state (rf : RegFile) (d : String) (rest : List String)
    (r : String × RegFile) (h : emu_sub_imm rf (d :: rest) = .ok r) :
    r.2 = rf ∨ ∃ v, r.2 = set_reg rf d v := by
  rcases rest with _ | ⟨a, _ | ⟨b, _ | ⟨c, tl⟩⟩⟩ <;> simp [emu_sub_imm] at h
  rcases hp : pyInt (pyStripHash b) with e | iv <;> simp [hp] at h
  exact Or.inr ⟨_, (congrArg Prod.snd h).symm⟩

lemma emu_add_reg_state (rf : RegFile) (d : String) (rest : List String)
    (r : String × RegFile) (h : emu_add_reg rf (d :: rest) = .ok r) :
    r.2 = rf ∨ ∃ v, r.2 = set_reg rf d v := by
  rcases rest with _ | ⟨a, _ | ⟨b, _ | ⟨c, tl⟩⟩⟩ <;> simp [emu_add_reg] at h
  exact Or.inr ⟨_, (congrArg Prod.snd h).symm⟩

lemma emu_sub_reg_state (rf : RegFile) (d : String) (rest : List String)
    (r : String × RegFile) (h : emu_sub_reg rf (d :: rest) = .ok r) :
    r.2 = rf ∨ ∃ v, r.2 = set_reg rf d v := by
  rcases rest with _ | ⟨a, _ | ⟨b, _ | ⟨c, tl⟩⟩⟩ <;> simp [emu_sub_reg] at h
  exact Or.inr ⟨_, (congrArg Prod.snd h).symm⟩

lemma emu_and_reg_state (rf : RegFile) (d : String) (rest : List String)
    (r : String × RegFile) (h : emu_and_reg rf (d :: rest) = .ok r) :
    r.2 = rf ∨ ∃ v, r.2 = set_reg rf d v := by
  rcases rest with _ | ⟨a, _ | ⟨b, _ | ⟨c, tl⟩⟩⟩ <;> simp [emu_and_reg] at h
  exact Or.inr ⟨_, (congrArg Prod.snd h).symm⟩

lemma emu_orr_reg_state (rf : RegFile) (d : String) (rest : List String)
    (r : String × RegFile) (h : emu_orr_reg rf (d :: rest) = .ok r) :
    r.2 = rf ∨ ∃ v, r.2 = set_reg rf d v := by
  rcases rest with _ | ⟨a, _ | ⟨b, _ | ⟨c, tl⟩⟩⟩ <;> simp [emu_orr_reg] at h
  exact Or.inr ⟨_, (congrArg Prod.snd h).symm⟩

lemma emu_eor_reg_state (rf : RegFile) (d : String) (rest : List String)
    (r : String × RegFile) (h : emu_eor_reg rf (d :: rest) = .ok r) :
    r.2 = rf ∨ ∃ v, r.2 = set_reg rf d v := by
  rcases rest with _ | ⟨a, _ | ⟨b, _ | ⟨c, tl⟩⟩⟩ <;> simp [emu_eor_reg] at h
  exact Or.inr ⟨_, (congrArg Prod.snd h).symm⟩

lemma emu_mov_reg_state (rf : RegFile) (d : String) (rest : List String)
    (r : String × RegFile) (h : emu_mov_reg rf (d :: rest) = .ok r) :
    r.2 = rf ∨ ∃ v, r.2 = set_reg rf d v := by
  rcases rest with _ | ⟨a, _ | ⟨b, tl⟩⟩ <;> simp [emu_mov_reg] at h
  exact Or.inr ⟨_, (congrArg Prod.snd h).symm⟩

lemma emu_mov_imm_state (rf : RegFile) (d : String) (rest : List String)
    (r : String × RegFile) (h : emu_mov_imm rf (d :: rest) = .ok r) :
    r.2 = rf ∨ ∃ v, r.2 = set_reg rf d v := by
  rcases rest with _ | ⟨a, _ | ⟨b, tl⟩⟩ <;> simp [emu_mov_imm] at h
  rcases hp : pyInt (pyStripHash a) with e | iv <;> simp [hp] at h
  split_ifs at h
  · exact Or.inr ⟨iv, by rw [← Except.ok.inj h]⟩
  · exact Or.inl (by rw [← Except.ok.inj h])

lemma executeBody_state (rf : RegFile) (m : String) (d : String) (rest : List String)
    (hh : Bool) (r : String × RegFile)
    (h : executeBody rf m (d :: rest) hh = .ok r) :
    r.2 = rf ∨ ∃ v, r.2 = set_reg rf d v := by
  unfold executeBody at h
  split_ifs at h
  · exact emu_add_imm_state rf d rest r h
  · exact emu_add_reg_state rf d rest r h
  · exact emu_sub_imm_state rf d rest r h
  · exact emu_sub_reg_state rf d rest r h
  · exact emu_mov_imm_state rf d rest r h
  · exact emu_mov_reg_state rf d rest r h
  · exact emu_and_reg_state rf d rest r h
  · exact emu_orr_reg_state rf d rest r h
  · exact emu_eor_reg_state rf d rest r h
  · exact Or.inl (congrArg Prod.snd (Except.ok.inj h)).symm

/-- Claim C7: reads of the zero register always yield 0, and any
`execute` whose destination (first operand) is `XZR`/`WZR` discards the
write, leaving every register slot unchanged. -/
theorem C7_zero_register :
    (∀ (rf : RegFile) (m o : String) (d : String) (rest : List String),
      (pySplit o ',').map pyStrip = d :: rest →
      (pyUpper d = "XZR" ∨ pyUpper d = "WZR") →
      (execute rf m o).2 = rf) ∧
    (∀ (rf : RegFile) (name : String),
      (pyUpper name = "XZR" ∨ pyUpper name = "WZR") → get_reg rf name = 0) := by
  constructor
  · intro rf m o d rest hp hd
    simp only [execute]
    rw [hp]
    rcases hb : executeBody rf (pyUpper m) (d :: rest) (pyContains o '#') with e | r
    · simp [hb]
    · simp only [hb]
      rcases executeBody_state rf (pyUpper m) d rest (pyContains o '#') r hb with h1 | ⟨v, h2⟩
      · exact h1
      · rw [h2, set_reg_zr rf d v hd]
  · intro rf name h
    unfold get_reg
    rcases h with h | h <;> simp [h]

/-- Witness for C7: executing `ADD XZR, X1, X2` leaves the initial
register file unchanged, and reading `WZR` yields 0. -/
theorem C7_zero_register_witness :
    (execute RegFile.init "ADD" "XZR, X1, X2").2 = RegFile.init ∧
    get_reg RegFile.init "WZR" = 0 :=
  ⟨C7_zero_register.1 RegFile.init "ADD" "XZR, X1, X2" "XZR" ["X1", "X2"]
      (by decide) (Or.inl (by decide)),
   C7_zero_register.2 RegFile.init "WZR" (Or.inr (by decide))⟩

/-- Claim C6: every arithmetic result the emulator stores is reduced
modulo `2 ^ 64` (every `set_reg` masks its value; the per-branch results
are additionally masked before the call), and in particular executing
`ADD X0, X0, #1` with `X0 = 0xFFFFFFFFFFFFFFFF` wraps `X0` to 0. -/
theorem C6_wraparound :
    get_reg (execute (set_reg RegFile.init "X0" 0xFFFFFFFFFFFFFFFF)
        "ADD" "X0, X0, #1").2 "X0" = 0 ∧
    (∀ (rf : RegFile) (name : String) (v : Int) (key : String),
      (set_reg rf name v).regs key = rf.regs key ∨
      (set_reg rf name v).regs key = (v.emod (2 ^ 64)).toNat ∨
      (set_reg rf name v).regs key = (v.emod (2 ^ 64)).toNat &&& 0xFFFFFFFF) := by
  constructor
  · decide
  · intro rf name v key
    simp only [set_reg]
    split_ifs
    · exact Or.inl rfl
    · by_cases hk : key = pyUpper name
      · refine Or.inr (Or.inl ?_); dsimp only; rw [if_pos hk]
      · refine Or.inl ?_; dsimp only; rw [if_neg hk]
    · by_cases hk : key = (⟨'X' :: (pyUpper name).data.drop 1⟩ : String)
      · refine Or.inr (Or.inr ?_); dsimp only; rw [if_pos hk]
      · refine Or.inl ?_; dsimp only; rw [if_neg hk]
    · by_cases hk : key = "SP"
      · refine Or.inr (Or.inl ?_); dsimp only; rw [if_pos hk]
      · refine Or.inl ?_; dsimp only; rw [if_neg hk]
    · exact Or.inl rfl

/-- Claim C8: `execute` is total on string inputs (the embedding returns
a narrative/state pair for every input; the Python `try`/`except` is the
`.error` fallback below).  Whenever the mnemonic is unrecognized, or the
branch body fails to parse or evaluate (the dispatched body returns
`.error`), the narrative is the empty string and the state is
untouched. -/
theorem C8_soft_fail :
    ∀ (rf : RegFile) (m o : String),
      (pyUpper m ∉ (["ADD", "SUB", "MOV", "AND", "ORR", "EOR"] : List String) →
        execute rf m o = ("", rf)) ∧
      (∀ e, executeBody rf (pyUpper m) ((pySplit o ',').map pyStrip)
          (pyContains o '#') = .error e →
        execute rf m o = ("", rf)) := by
  intro rf m o
  constructor
  · intro hm
    simp only [List.mem_cons, List.not_mem_nil, or_false, not_or] at hm
    obtain ⟨h1, h2, h3, h4, h5, h6⟩ := hm
    simp [execute, executeBody, h1, h2, h3, h4, h5, h6]
  · intro e he
    simp only [execute, he]

/-- Witness for C8: an unrecognized mnemonic yields the empty narrative
and leaves the register file untouched. -/
theorem C8_soft_fail_witness :
    execute RegFile.init "XYZ" "X0, X1" = ("", RegFile.init) :=
  (C8_soft_fail RegFile.init "XYZ" "X0, X1").1 (by decide)
